import Mathlib

/-!
# Verification of the tm_application project-label cleaning engine

Shallow embedding of `src/py_functions/cleaning_utils.py` and
`src/py_functions/gbq_utils.py`.

Modelling conventions, fixed once here:

* A dataset row (`SRow`) carries the four columns the cleaning code touches:
  `user` (nullable), `hours` (numeric, modelled as `Rat`), `project` (string)
  and `timestamp` (an opaque scalar, modelled as `Int`; no claim depends on
  its internal structure).
* `projects_df` (the table built by `construct_projects_df`) is a list of
  `PRow`s.  The code runs `df.project.value_counts().reset_index()` and then
  accesses the columns `'index'` and `'project'`; that column layout exists
  only on pandas < 2.0, where `'index'` holds the distinct project label and
  `'project'` holds its occurrence count.  (On pandas >= 2.0 line 140 of the
  source would raise `KeyError: 'index'`, so the pre-2.0 layout is the one the
  program actually runs with, and it also matches the docstring of
  `generate_correction_dict`: "columns for the index (project name),
  project (count)".)  The `PRow` fields are named after those columns.
* `fuzz.ratio` (via `calculate_similarity`) is modelled by its
  python-Levenshtein backend, fuzzywuzzy's primary configuration
  (pure-difflib use emits a "slow pure-python SequenceMatcher" warning):
  `ratio = intr(100 * (lensum - dist) / lensum)` where `dist` is the edit
  distance with substitution weight 2, i.e. `|a| + |b| - 2 * lcs a b`.  Hence
  `ratio a b = round (200 * lcs a b / (|a| + |b|))` with Python 3's
  banker's rounding (`utils.intr = int ∘ round`), and `100` when both strings
  are empty.  This reproduces the source docstring example
  `calculate_similarity('project-30', 'project-31') = 90`.
* `fuzz.ratio` stringifies non-string arguments (`utils.make_type_consistent`
  falls back to `str(..)`), so the missing predecessor of the first
  `projects_df` row — the float `NaN` produced by `shift(1)` — reaches the
  scorer as the three-letter string `"nan"`.
* Pandas sorts (`value_counts`, `sort_values`) are modelled as stable sorts
  (`List.insertionSort` with a non-strict total relation).  `value_counts`
  orders distinct labels by descending count, ties in first-appearance order.
* Python dicts are modelled as association lists (`List (Option String × String)`)
  where insertion conses to the front and `List.lookup` takes the most recent
  binding, reproducing last-write-wins update; the key type is
  `Option String` because the float `NaN` (= `none`) can become a dict key via
  the `shifted` column.
-/

/-- Inner recursion of `lcs`: `f` is `lcs as` for the tail `as` of the first
list; the second list is consumed structurally. -/
def lcsAux (a : Char) (f : List Char → Nat) : List Char → Nat
  | [] => 0
  | b :: bs => if a = b then f bs + 1 else max (f (b :: bs)) (lcsAux a f bs)

/-- Length of a longest common subsequence of two character lists.  This is
the quantity `(|a| + |b| - dist) / 2` underlying python-Levenshtein's
`ratio` (edit distance with substitution weight 2). -/
def lcs : List Char → List Char → Nat
  | [], _ => 0
  | a :: as, b => lcsAux a (lcs as) b

/-- Python 3 `int(round(num / den))` on an exact rational `num / den`:
round half to even (banker's rounding), for `den ≠ 0`. -/
def roundHalfEven (num den : Nat) : Nat :=
  let q := num / den
  let r := num % den
  if 2 * r < den then q
  else if den < 2 * r then q + 1
  else if q % 2 = 0 then q else q + 1

/-- `fuzz.ratio` as computed by fuzzywuzzy's python-Levenshtein backend:
`intr(100 * (lensum - dist) / lensum)` with `dist = lensum - 2 * lcs`,
and `100` when both strings are empty (`ratio('', '') = 1.0`). -/
def fuzzRatio (a b : String) : Nat :=
  let L := lcs a.data b.data
  let T := a.length + b.length
  if T = 0 then 100 else roundHalfEven (200 * L) T

/-- `calculate_similarity(entry1, entry2)` from `cleaning_utils.py`:
`return fuzz.ratio(entry1, entry2)`. -/
def calculate_similarity (entry1 entry2 : String) : Nat :=
  fuzzRatio entry1 entry2

/-- `soundex` digit class of an (uppercased) letter, as in jellyfish's
soundex: `BFPV → 1`, `CGJKQSXZ → 2`, `DT → 3`, `L → 4`, `MN → 5`, `R → 6`,
anything else (vowels, `H`, `W`, non-letters) has no digit. -/
def soundexCode (c : Char) : Option Char :=
  if c ∈ (['B', 'F', 'P', 'V'] : List Char) then some '1'
  else if c ∈ (['C', 'G', 'J', 'K', 'Q', 'S', 'X', 'Z'] : List Char) then some '2'
  else if c ∈ (['D', 'T'] : List Char) then some '3'
  else if c = 'L' then some '4'
  else if c ∈ (['M', 'N'] : List Char) then some '5'
  else if c = 'R' then some '6'
  else none

/-- Uppercase an ASCII letter (the labels this program feeds to `soundex`
are ASCII, where unicode NFKD normalisation is the identity). -/
def toUpperAscii (c : Char) : Char :=
  if 'a' ≤ c ∧ c ≤ 'z' then Char.ofNat (c.toNat - 32) else c

/-- Main loop of jellyfish's soundex over the remaining letters: `last` is
the digit class of the previous letter (`none` after a vowel or other
unclassified non-`H`/`W` letter), `acc` the code built so far, `count` its
length.  The loop stops as soon as four code characters exist, otherwise
pads with `'0'` to length four. -/
def soundexLoop : List Char → Option Char → List Char → Nat → List Char
  | [], _, acc, count => acc ++ List.replicate (4 - count) '0'
  | c :: rest, last, acc, count =>
    let step : List Char × Nat × Option Char :=
      match soundexCode c with
      | some sub =>
        if some sub ≠ last then (acc ++ [sub], count + 1, some sub)
        else (acc, count, some sub)
      | none =>
        if c ≠ 'H' ∧ c ≠ 'W' then (acc, count, none) else (acc, count, last)
    if step.2.1 = 4 then step.1
    else soundexLoop rest step.2.2 step.1 step.2.1

/-- Jellyfish `soundex`: keep the first (uppercased) character, then append
the digit classes of subsequent letters, skipping repeats of the previous
class (with `H`/`W` transparent), stopping at four characters and padding
with zeros.  The empty string maps to the empty code. -/
def soundex (s : String) : String :=
  match s.data.map toUpperAscii with
  | [] => ""
  | c :: rest => String.mk (soundexLoop rest (soundexCode c) [c] 1)

/-- A row of the loaded time-tracking dataset, restricted to the columns the
cleaning code reads: `user` (nullable), `hours` (numeric, modelled as `Rat`),
`project`, and `timestamp` (an opaque scalar). -/
structure SRow where
  user : Option String
  hours : Rat
  project : String
  timestamp : Int
deriving DecidableEq

/-- A row of `projects_df` (pandas < 2.0 layout of
`df.project.value_counts().reset_index()` plus the added columns):
`index` = the distinct project label, `project` = its occurrence count,
`soundex` = phonetic code of the label, `shifted` = the label of the
previous row after the phonetic sort (`none`, i.e. float `NaN`, for the
first row), `similarity_score` = fuzz ratio of `index` against `shifted`. -/
structure PRow where
  index : String
  project : Nat
  soundex : String
  shifted : Option String
  similarity_score : Nat
deriving DecidableEq

/-- A Python dict from label-or-NaN keys to labels, as an association list:
assignment conses the new binding to the front and `List.lookup` takes the
most recent one (last write wins).  The key `none` stands for the float
`NaN` that `shift(1)` puts in the `shifted` column of the first row. -/
abbrev Dict := List (Option String × String)

/-- Python's `<` on strings (code-point lexicographic order, which is what
pandas uses when sorting a label column), stated over the character lists so
that it is decidable by structural recursion. -/
def strLt (a b : String) : Prop := List.Lex (· < ·) a.data b.data

instance : DecidableRel strLt := fun a b =>
  inferInstanceAs (Decidable (List.Lex (· < ·) a.data b.data))

/-- Ordering used by `value_counts()`: occurrence count descending
(ties are implementation-defined in pandas; the stable sort keeps them in
first-listed order, and no theorem below depends on tie order). -/
def vcGe (x y : String × Nat) : Prop := y.2 ≤ x.2

instance : DecidableRel vcGe := fun x y => inferInstanceAs (Decidable (y.2 ≤ x.2))

instance : IsTotal (String × Nat) vcGe :=
  ⟨fun a b => (Nat.le_total a.2 b.2).symm⟩

instance : IsTrans (String × Nat) vcGe :=
  ⟨fun _ _ _ hab hbc => le_trans hbc hab⟩

/-- `df.project.value_counts()`: one `(label, count)` pair per distinct
project label, sorted by count descending. -/
def value_counts (df : List SRow) : List (String × Nat) :=
  let labels := (df.map (fun r => r.project)).dedup
  List.insertionSort vcGe
    (labels.map (fun l => (l, (df.map (fun r => r.project)).count l)))

/-- Ordering of `projects_df.sort_values(by=['soundex','project'])`
(both ascending): phonetic code first, then the `'project'` column — which
holds the occurrence count, not the label. -/
def pjLe (x y : String × Nat) : Prop :=
  strLt (soundex x.1) (soundex y.1) ∨ (soundex x.1 = soundex y.1 ∧ x.2 ≤ y.2)

instance : DecidableRel pjLe := fun x y => by
  unfold pjLe
  infer_instance

instance : IsTotal (String × Nat) pjLe := by
  constructor
  intro a b
  rcases lt_trichotomy (soundex a.1).data (soundex b.1).data with h | h | h
  · exact Or.inl (Or.inl h)
  · have he : soundex a.1 = soundex b.1 := by
      cases hs1 : soundex a.1
      cases hs2 : soundex b.1
      rw [hs1, hs2] at h
      exact congrArg String.mk h
    rcases Nat.le_total a.2 b.2 with h2 | h2
    · exact Or.inl (Or.inr ⟨he, h2⟩)
    · exact Or.inr (Or.inr ⟨he.symm, h2⟩)
  · exact Or.inr (Or.inl h)

instance : IsTrans (String × Nat) pjLe := by
  constructor
  intro a b c hab hbc
  rcases hab with h1 | ⟨h1, h1'⟩
  · rcases hbc with h2 | ⟨h2, _⟩
    · exact Or.inl (lt_trans (show (soundex a.1).data < (soundex b.1).data from h1)
        (show (soundex b.1).data < (soundex c.1).data from h2))
    · exact Or.inl (h2 ▸ h1)
  · rcases hbc with h2 | ⟨h2, h2'⟩
    · exact Or.inl (show strLt (soundex a.1) (soundex c.1) from h1 ▸ h2)
    · exact Or.inr ⟨h1.trans h2, le_trans h1' h2'⟩

/-- Add the `shifted` and `similarity_score` columns: `shifted` is the
previous row's label (`NaN`, i.e. `none`, for the first row) and
`similarity_score = calculate_similarity(index, shifted)`.  fuzzywuzzy's
`make_type_consistent` coerces the float `NaN` to `str(nan) = "nan"`, so the
first row is scored against the literal string `"nan"`. -/
def addShifted : Option String → List (String × Nat) → List PRow
  | _, [] => []
  | prev, (l, c) :: rest =>
    { index := l, project := c, soundex := soundex l, shifted := prev,
      similarity_score := calculate_similarity l (prev.getD ("nan")) }
      :: addShifted (some l) rest

/-- `construct_projects_df(df)` from `cleaning_utils.py`: value counts,
soundex column, sort by `['soundex', 'project']` (code then count), then
`shifted = index.shift(1)` and the adjacent similarity scores. -/
def construct_projects_df (df : List SRow) : List PRow :=
  addShifted none (List.insertionSort pjLe (value_counts df))

/-- Ordering of `df_temp.sort_values(by='project', ascending=False)` inside
`process_group`: occurrence count (the `'project'` column) descending. -/
def countGe (x y : PRow) : Prop := y.project ≤ x.project

instance : DecidableRel countGe := fun x y => inferInstanceAs (Decidable (y.project ≤ x.project))

instance : IsTotal PRow countGe :=
  ⟨fun a b => (Nat.le_total a.project b.project).symm⟩

instance : IsTrans PRow countGe :=
  ⟨fun _ _ _ hab hbc => le_trans hbc hab⟩

/-- The cluster rows sorted by occurrence count descending (stable). -/
def sortByCount (l : List PRow) : List PRow := List.insertionSort countGe l

/-- `elements = list(set(df_temp['index'].tolist() + df_temp['shifted'].tolist()))`:
all labels referenced by the cluster, as label-or-NaN keys, deduplicated. -/
def group_elements (df_temp : List PRow) : List (Option String) :=
  ((df_temp.map (fun r => some r.index)) ++ df_temp.map (fun r => r.shifted)).dedup

/-- `process_group(df_temp, correction_dict)`: sort the cluster rows by the
`'project'` (count) column descending, take the first row's label as
canonical (`df_temp['index'].iloc[0]`), and bind every element of the
cluster to it.  (`iloc[0]` on an empty frame would raise; the caller only
passes non-empty clusters, and the empty case is mapped to the unchanged
dict.) -/
def process_group (df_temp : List PRow) (correction_dict : Dict) : Dict :=
  match sortByCount df_temp with
  | [] => correction_dict
  | first :: rest =>
    (group_elements (first :: rest)).foldl
      (fun d e => (e, first.index) :: d) correction_dict

/-- The canonical label `process_group` elects for a cluster: the label of
the first row after the stable descending sort on the count column. -/
def canonical_label (df_temp : List PRow) : Option String :=
  (sortByCount df_temp).head?.map (fun r => r.index)

/-- Ordering by label descending — the rule the spec claims for the
canonical choice (`x` before `y` when `y`'s label is not above `x`'s). -/
def labelGe (x y : PRow) : Prop := ¬ strLt x.index y.index

instance : DecidableRel labelGe := fun x y =>
  inferInstanceAs (Decidable (¬ strLt x.index y.index))

/-- Modelled from the spec's words, for comparison with `process_group`
(claim C1): "Sort the cluster's underlying rows by label descending.
Canonical = the label value of the row now in first position." -/
def spec_canonical (df_temp : List PRow) : Option String :=
  (List.insertionSort labelGe df_temp).head?.map (fun r => r.index)

/-- The scan of `generate_correction_dict`: a row with similarity > 90 joins
the pending buffer `df_temp`; otherwise a non-empty buffer is flushed
through `process_group`; a trailing non-empty buffer is flushed at the end. -/
def gcdLoop : List PRow → List PRow → Dict → Dict
  | [], df_temp, correction_dict =>
    if df_temp.isEmpty then correction_dict
    else process_group df_temp correction_dict
  | row :: rest, df_temp, correction_dict =>
    if 90 < row.similarity_score then
      gcdLoop rest (df_temp ++ [row]) correction_dict
    else if 0 < df_temp.length then
      gcdLoop rest [] (process_group df_temp correction_dict)
    else
      gcdLoop rest df_temp correction_dict

/-- `generate_correction_dict(df)` from `cleaning_utils.py`. -/
def generate_correction_dict (df : List PRow) : Dict :=
  gcdLoop df [] []

/-- `apply_correction(correction_dict, value)`: `try: value =
correction_dict[value] except KeyError: pass; return value` — the dict value
when the label is a key, the label itself when the `KeyError` is absorbed. -/
def apply_correction (correction_dict : Dict) (value : String) : String :=
  match correction_dict.lookup (some value) with
  | some v => v
  | none => value

/-- `make_naive(x)` as it behaves on the scalars `clean_df` feeds it: the
body calls the Series accessor `.dt` on `pd.to_datetime(x)`, which on a
scalar timestamp raises `AttributeError`; the bare `except: pass` absorbs it
and returns `x` unchanged, so the element-wise application is the
identity. -/
def make_naive (x : Int) : Int := x

/-- `clean_df(df, correction_dict)`: drop rows with null `user`, keep rows
with `hours > 0`, rewrite `project` through `apply_correction`, and pass
`timestamp` through `make_naive`. -/
def clean_df (df : List SRow) (correction_dict : Dict) : List SRow :=
  let df1 := df.filter (fun r => r.user.isSome)
  let df2 := df1.filter (fun r => decide (0 < r.hours))
  let df3 := df2.map
    (fun r => { r with project := apply_correction correction_dict r.project })
  df3.map (fun r => { r with timestamp := make_naive r.timestamp })

/-- The static override table `hard_coded_dict` defined at the top of
`cleaning_utils.py` (its two live entries; the rest are commented out). -/
def hard_coded_dict : List (String × String) :=
  [("traffic", "transit"), ("misc", "miscellaneous")]

/-- `cleaning_process`, minus the I/O (URL formatting and CSV download):
the loaded dataframe is taken as input, and the function returns the raw
and the cleaned dataframes, exactly as the source composes
`construct_projects_df`, `generate_correction_dict` and `clean_df`. -/
def cleaning_process (df_raw : List SRow) : List SRow × List SRow :=
  (df_raw,
    clean_df df_raw (generate_correction_dict (construct_projects_df df_raw)))

/-- A warehouse interaction performed by `bq_write`, recorded in order. -/
inductive SinkOp where
  | loadTable (table : String)
  | getTable (table : String)
deriving DecidableEq

/-- The warehouse's observable behaviour, abstracted: the row count the
sink reports for the target table once the load job reaches its terminal
state (the polling loop is collapsed into this terminal answer). -/
structure Warehouse where
  tableRows : Nat

/-- `bq_write(df, credentials, dataset_name, table_name, client)` from
`gbq_utils.py`: an empty dataframe is rejected with
`'No dataframe to be transferred'` before any client call; otherwise a
truncate-and-load job for `project_id.dataset.table` runs, the table is
fetched back, and success is the loaded row count matching `len(df)`.
The second component records every warehouse interaction made. -/
def bq_write (w : Warehouse) (df : List SRow)
    (project_id dataset_name table_name : String) :
    (Bool × Option String) × List SinkOp :=
  if df.length = 0 then
    ((false, some ("No dataframe to be transferred")), [])
  else
    let target_table_id := project_id ++ "." ++ dataset_name ++ "." ++ table_name
    ((decide (w.tableRows = df.length), none),
      [SinkOp.loadTable target_table_id, SinkOp.getTable target_table_id])

/-- Test fixture: a dataset row with a non-null user and one positive hour,
carrying the given project label. -/
def uRow (p : String) : SRow :=
  { user := some ("u"), hours := 1, project := p, timestamp := 0 }

/-- Test fixture for claim C1: a cluster row whose label sorts low but whose
count is high. -/
def pr1 : PRow :=
  { index := "aa", project := 5, soundex := soundex ("aa"),
    shifted := some ("x"), similarity_score := 95 }

/-- Test fixture for claim C1: a cluster row whose label sorts high but whose
count is low. -/
def pr2 : PRow :=
  { index := "ab", project := 1, soundex := soundex ("ab"),
    shifted := some ("aa"), similarity_score := 95 }

/-- Test fixture for claim C4: a first row, scored against the stringified
missing predecessor. -/
def p90 : PRow :=
  { index := "project-30", project := 3, soundex := soundex ("project-30"),
    shifted := none,
    similarity_score := calculate_similarity ("project-30") ("nan") }

/-- Test fixture for claim C4: a second row whose similarity to its
predecessor is exactly 90. -/
def q90 : PRow :=
  { index := "project-31", project := 1, soundex := soundex ("project-31"),
    shifted := some ("project-30"),
    similarity_score := calculate_similarity ("project-31") ("project-30") }

/-- Test fixture for claim C4: a first row, scored against the stringified
missing predecessor. -/
def p91 : PRow :=
  { index := "proje", project := 2, soundex := soundex ("proje"),
    shifted := none,
    similarity_score := calculate_similarity ("proje") ("nan") }

/-- Test fixture for claim C4: a second row whose similarity to its
predecessor is exactly 91. -/
def q91 : PRow :=
  { index := "projec", project := 1, soundex := soundex ("projec"),
    shifted := some ("proje"),
    similarity_score := calculate_similarity ("projec") ("proje") }

/-- A correction dict is self-closed when every value it can return is
itself a key bound to itself. -/
def selfClosed (d : Dict) : Prop :=
  ∀ k v, d.lookup k = some v → d.lookup (some v) = some v

/-- The `shifted` column structure that `construct_projects_df` guarantees:
each row's `shifted` is the previous row's label, and the first row's is the
given predecessor (`none` = `NaN` at the top of the frame). -/
def chainFrom : Option String → List PRow → Prop
  | _, [] => True
  | prev, r :: rs => r.shifted = prev ∧ chainFrom (some r.index) rs

/-- Invariant of the clustering scan: the dict is self-closed and none of
its reachable values is a key that may still be written later (`S` lists
the keys future flushes may bind). -/
def okState (d : Dict) (S : List (Option String)) : Prop :=
  ∀ k v, d.lookup k = some v → d.lookup (some v) = some v ∧ some v ∉ S

theorem lcs_nil_left (b : List Char) : lcs [] b = 0 := rfl

theorem lcs_nil_right : ∀ a : List Char, lcs a [] = 0
  | [] => rfl
  | _ :: _ => rfl

theorem lcs_cons_cons (a b : Char) (as bs : List Char) :
    lcs (a :: as) (b :: bs) =
      if a = b then lcs as bs + 1
      else max (lcs as (b :: bs)) (lcs (a :: as) bs) := rfl

theorem lcs_comm : ∀ a b : List Char, lcs a b = lcs b a := by
  intro a
  induction a with
  | nil => intro b; cases b <;> simp [lcs_nil_left, lcs_nil_right]
  | cons a as iha =>
    intro b
    induction b with
    | nil => simp [lcs_nil_left, lcs_nil_right]
    | cons b bs ihb =>
      by_cases hab : a = b
      · subst hab
        rw [lcs_cons_cons, lcs_cons_cons, if_pos rfl, if_pos rfl, iha bs]
      · have hba : ¬ b = a := fun h => hab h.symm
        rw [lcs_cons_cons, lcs_cons_cons, if_neg hab, if_neg hba]
        rw [iha (b :: bs), ihb, Nat.max_comm]

theorem lcs_self : ∀ a : List Char, lcs a a = a.length := by
  intro a
  induction a with
  | nil => rfl
  | cons a as ih => rw [lcs_cons_cons, if_pos rfl, ih]; rfl

theorem lcs_length_eq_data_length (a : String) : a.length = a.data.length := rfl

/-- Claim C9: `calculate_similarity` is symmetric, and every string has
similarity `100` with itself: `fuzz.ratio` is `round (200·lcs/(|a|+|b|))`,
`lcs` is symmetric and `lcs a a = |a|`. -/
theorem calculate_similarity_symm_and_refl :
    (∀ a b : String, calculate_similarity a b = calculate_similarity b a) ∧
    (∀ a : String, calculate_similarity a a = 100) := by
  constructor
  · intro a b
    simp only [calculate_similarity, fuzzRatio]
    rw [lcs_comm, Nat.add_comm]
  · intro a
    simp only [calculate_similarity, fuzzRatio, lcs_self]
    by_cases h : a.length = 0
    · simp [h]
    · have hT : a.length + a.length ≠ 0 := by omega
      rw [lcs_length_eq_data_length] at *
      simp only [if_neg hT]
      have h2 : 200 * a.data.length = 100 * (a.data.length + a.data.length) := by ring
      simp only [roundHalfEven, h2]
      rw [Nat.mul_div_cancel, Nat.mul_mod_left]
      · norm_num
      · omega

/-- Claim C7: `apply_correction` returns the dict entry when the label is a
key and the label unchanged when it is not; the `KeyError` of the missing
key is absorbed inside the function (the embedding is total). -/
theorem apply_correction_total_lookup (m : Dict) (L : String) :
    (∀ v, m.lookup (some L) = some v → apply_correction m L = v) ∧
    (m.lookup (some L) = none → apply_correction m L = L) := by
  constructor
  · intro v h
    simp [apply_correction, h]
  · intro h
    simp [apply_correction, h]

theorem apply_correction_total_lookup_witness :
    apply_correction ([(some ("a"), "b")] : Dict) ("a") = "b" ∧
    apply_correction ([(some ("a"), "b")] : Dict) ("c") = "c" :=
  ⟨(apply_correction_total_lookup [(some ("a"), "b")] ("a")).1 ("b") (by decide),
   (apply_correction_total_lookup [(some ("a"), "b")] ("c")).2 (by decide)⟩

/-- Claim C8: on a dataframe with zero rows, `bq_write` returns
`success = False` with the error `'No dataframe to be transferred'` and
performs no warehouse interaction at all. -/
theorem bq_write_empty_rejected (w : Warehouse) (df : List SRow)
    (project_id dataset_name table_name : String) (h : df.length = 0) :
    bq_write w df project_id dataset_name table_name =
      ((false, some ("No dataframe to be transferred")), []) := by
  simp [bq_write, h]

theorem bq_write_empty_rejected_witness :
    bq_write ⟨7⟩ [] ("p") ("d") ("t") =
      ((false, some ("No dataframe to be transferred")), []) :=
  bq_write_empty_rejected ⟨7⟩ [] ("p") ("d") ("t") rfl

/-- Claim C10: `clean_df` keeps exactly the rows with a non-null user and
positive hours, in their original relative order, and rewrites only the
`project` and `timestamp` columns of those rows (`user` and `hours` pass
through untouched). -/
theorem clean_df_frame (df : List SRow) (m : Dict) :
    clean_df df m =
      (df.filter (fun r => r.user.isSome && decide (0 < r.hours))).map
        (fun r => { r with project := apply_correction m r.project,
                           timestamp := make_naive r.timestamp }) := by
  simp only [clean_df]
  rw [List.map_map, List.filter_filter]
  have hp : (fun r : SRow => decide (0 < r.hours) && r.user.isSome)
      = (fun r : SRow => r.user.isSome && decide (0 < r.hours)) :=
    funext fun r => Bool.and_comm _ _
  rw [hp]
  rfl

theorem addShifted_key_cols (prev : Option String) (l : List (String × Nat)) :
    (addShifted prev l).map (fun r => (r.index, r.project, r.soundex)) =
      l.map (fun x => (x.1, x.2, soundex x.1)) := by
  induction l generalizing prev with
  | nil => rfl
  | cons x xs ih =>
    cases x
    simp [addShifted, ih]

/-- Claim C2 (amended): the projects table is sorted ascending by
(phonetic code, count): codes never decrease, and whenever two rows carry
equal phonetic codes the earlier row's count — the `'project'` column that
`sort_values(by=['soundex','project'])` actually uses, not the label — is
less than or equal to the later row's. -/
theorem construct_projects_df_sorted_by_code_count (df : List SRow) :
    List.Pairwise
      (fun a b : PRow =>
        strLt a.soundex b.soundex ∨ (a.soundex = b.soundex ∧ a.project ≤ b.project))
      (construct_projects_df df) := by
  have h1 : List.Pairwise pjLe (List.insertionSort pjLe (value_counts df)) :=
    List.sorted_insertionSort pjLe (value_counts df)
  have h3 : List.Pairwise
      (fun u v : String × Nat × String =>
        strLt u.2.2 v.2.2 ∨ (u.2.2 = v.2.2 ∧ u.2.1 ≤ v.2.1))
      ((List.insertionSort pjLe (value_counts df)).map
        (fun x => (x.1, x.2, soundex x.1))) := by
    rw [List.pairwise_map]
    exact h1
  rw [← addShifted_key_cols none, List.pairwise_map] at h3
  exact h3

/-- Counterexample to claim C2 as stated: with five rows `"ba"` and one row
`"bb"` the two labels share the phonetic code `B000`, yet the produced table
puts `"bb"` (count 1) before `"ba"` (count 5) — the earlier row's label is
lexicographically greater, because the tie-break is the count column, not
the label. -/
theorem construct_projects_df_label_order_violated :
    (construct_projects_df [uRow ("ba"), uRow ("ba"), uRow ("ba"), uRow ("ba"),
        uRow ("ba"), uRow ("bb")]).map (fun r => (r.index, r.soundex)) =
      [("bb", "B000"), ("ba", "B000")] ∧ strLt ("ba") ("bb") := by
  refine ⟨by decide, by decide⟩

theorem lookup_foldl_insert (c : String) (ks : List (Option String)) (d : Dict)
    (k : Option String) :
    (ks.foldl (fun d e => (e, c) :: d) d).lookup k =
      if k ∈ ks then some c else d.lookup k := by
  induction ks generalizing d with
  | nil => simp
  | cons e ks ih =>
    simp only [List.foldl_cons, ih, List.mem_cons]
    by_cases hk : k ∈ ks
    · simp [hk]
    · by_cases he : k = e
      · subst he
        simp [hk, List.lookup]
      · have hbe : (k == e) = false := beq_eq_false_iff_ne.mpr he
        simp [hk, he, List.lookup, hbe]

/-- Claim C1 (amended): for every non-empty cluster, `process_group` maps
every referenced label (member labels and their `shifted` predecessors) to
one common canonical label, and that canonical is the label of a cluster
row of maximal occurrence count — the first row after the descending sort
on the `'project'` (count) column.  The choice is frequency-based, not the
label-descending positional rule. -/
theorem process_group_canonical_max_count (df_temp : List PRow) (d : Dict)
    (c : String) (hc : canonical_label df_temp = some c) :
    (∀ k, (k ∈ df_temp.map (fun r => some r.index) ∨
           k ∈ df_temp.map (fun r => r.shifted)) →
        (process_group df_temp d).lookup k = some c) ∧
    ∃ r ∈ df_temp, r.index = c ∧ ∀ s ∈ df_temp, s.project ≤ r.project := by
  cases hs : sortByCount df_temp with
  | nil =>
    rw [canonical_label, hs] at hc
    simp at hc
  | cons first rest =>
    rw [canonical_label, hs] at hc
    simp at hc
    have hperm : (first :: rest).Perm df_temp := by
      rw [← hs]
      exact List.perm_insertionSort countGe df_temp
    have hsorted : List.Sorted countGe (first :: rest) := by
      rw [← hs]
      exact List.sorted_insertionSort countGe df_temp
    constructor
    · intro k hk
      have hpg : process_group df_temp d =
          (group_elements (first :: rest)).foldl
            (fun d e => (e, first.index) :: d) d := by
        rw [process_group, hs]
      have hk' : k ∈ group_elements (first :: rest) := by
        rw [group_elements, List.mem_dedup, List.mem_append]
        rcases hk with hk | hk
        · exact Or.inl ((hperm.map (fun r => some r.index)).mem_iff.2 hk)
        · exact Or.inr ((hperm.map (fun r => r.shifted)).mem_iff.2 hk)
      rw [hpg, lookup_foldl_insert, if_pos hk', hc]
    · refine ⟨first, hperm.mem_iff.1 (List.mem_cons_self first rest), hc, ?_⟩
      intro s hsmem
      rcases List.mem_cons.1 (hperm.mem_iff.2 hsmem) with rfl | hmem
      · exact le_refl _
      · exact List.rel_of_sorted_cons hsorted s hmem

/-- Counterexample to claim C1 as stated: in the cluster `[pr1, pr2]`
(labels `"aa"` with count 5 and `"ab"` with count 1), the label-descending
rule of the spec elects `"ab"`, but `process_group` sorts by the count
column and writes `"aa"` as the mapping value — in particular the member
`"ab"` is mapped to `"aa"`, not to `"ab"`. -/
theorem process_group_not_label_positional :
    spec_canonical [pr1, pr2] = some ("ab") ∧
    (process_group [pr1, pr2] []).lookup (some ("ab")) = some ("aa") ∧
    ("aa" : String) ≠ "ab" := by
  refine ⟨by decide, by decide, by decide⟩

theorem process_group_canonical_max_count_witness :
    canonical_label [pr1, pr2] = some ("aa") ∧
    (process_group [pr1, pr2] []).lookup (some ("x")) = some ("aa") :=
  ⟨by decide,
   (process_group_canonical_max_count [pr1, pr2] [] ("aa") (by decide)).1
      (some ("x")) (by decide)⟩

/-- Claim C4: the clustering scan of `generate_correction_dict` merges a
phonetically adjacent pair exactly when `similarity_score > 90`: a second
row scoring exactly 90 produces no correction entries at all, while a
second row scoring above 90 is merged — it and its predecessor label both
map to the common canonical. -/
theorem generate_correction_dict_threshold (p q : PRow)
    (h0 : p.similarity_score ≤ 90) :
    (q.similarity_score = 90 → generate_correction_dict [p, q] = []) ∧
    (90 < q.similarity_score →
      (generate_correction_dict [p, q]).lookup (some q.index) = some q.index ∧
      (generate_correction_dict [p, q]).lookup q.shifted = some q.index) := by
  have hp : ¬ 90 < p.similarity_score := Nat.not_lt.mpr h0
  constructor
  · intro h90
    simp [generate_correction_dict, gcdLoop, hp, h90]
  · intro h91
    have hflush : generate_correction_dict [p, q] = process_group [q] [] := by
      simp [generate_correction_dict, gcdLoop, hp, h91]
    have hpg : process_group [q] ([] : Dict) =
        (group_elements [q]).foldl (fun d e => (e, q.index) :: d) [] := rfl
    have h1 : some q.index ∈ group_elements [q] := by
      rw [group_elements, List.mem_dedup]
      simp
    have h2 : q.shifted ∈ group_elements [q] := by
      rw [group_elements, List.mem_dedup]
      simp
    rw [hflush, hpg, lookup_foldl_insert, lookup_foldl_insert, if_pos h1, if_pos h2]
    exact ⟨rfl, rfl⟩

theorem generate_correction_dict_threshold_witness :
    q90.similarity_score = calculate_similarity ("project-31") ("project-30") ∧
    calculate_similarity ("project-31") ("project-30") = 90 ∧
    generate_correction_dict [p90, q90] = [] ∧
    q91.similarity_score = calculate_similarity ("projec") ("proje") ∧
    calculate_similarity ("projec") ("proje") = 91 ∧
    (generate_correction_dict [p91, q91]).lookup (some ("projec")) =
      some ("projec") :=
  ⟨rfl, by decide,
   (generate_correction_dict_threshold p90 q90 (by decide)).1 (by decide),
   rfl, by decide,
   ((generate_correction_dict_threshold p91 q91 (by decide)).2 (by decide)).1⟩

/-- Claim C3 (amended): the static override table `hard_coded_dict` is
defined but never consulted by the pipeline; a `"traffic"` or `"misc"` row
is rewritten only through the computed correction dict, so when the
computed dict has no entry for these labels the rows leave `clean_df`
completely unchanged (not as `"transit"`/`"miscellaneous"`). -/
theorem clean_df_ignores_hard_coded_dict (m : Dict) (u : String) (hrs : Rat)
    (ts : Int) (ht : m.lookup (some ("traffic")) = none)
    (hm : m.lookup (some ("misc")) = none) (hp : 0 < hrs) :
    clean_df [⟨some u, hrs, "traffic", ts⟩, ⟨some u, hrs, "misc", ts⟩] m =
      [⟨some u, hrs, "traffic", ts⟩, ⟨some u, hrs, "misc", ts⟩] := by
  simp [clean_df, apply_correction, ht, hm, hp, make_naive]

/-- Counterexample to claim C3 as stated: running the full cleaning pipeline
on a dataset with one `"traffic"` row and one `"misc"` row leaves both
labels untouched, even though `hard_coded_dict` maps them to `"transit"`
and `"miscellaneous"` — the static table is never applied. -/
theorem cleaning_process_no_static_override :
    ((cleaning_process [uRow ("traffic"), uRow ("misc")]).2).map
        (fun r => r.project) = ["traffic", "misc"] ∧
    List.lookup ("traffic") hard_coded_dict = some ("transit") ∧
    List.lookup ("misc") hard_coded_dict = some ("miscellaneous") := by
  refine ⟨by decide, by decide, by decide⟩

theorem clean_df_ignores_hard_coded_dict_witness :
    clean_df [⟨some ("u"), 1, "traffic", 0⟩, ⟨some ("u"), 1, "misc", 0⟩]
        ([] : Dict) =
      [⟨some ("u"), 1, "traffic", 0⟩, ⟨some ("u"), 1, "misc", 0⟩] :=
  clean_df_ignores_hard_coded_dict [] ("u") 1 0 rfl rfl (by norm_num)

/-- Claim C6 is right about the intent but the code violates it: on a
dataset whose only project label is `"nan"`, the first (and only) record of
the sorted sequence — whose predecessor is missing — is scored against the
stringified `NaN` (`str(nan) = "nan"`), gets similarity 100 > 90, joins a
cluster, and produces correction entries for both `"nan"` and the `NaN`
key itself. -/
theorem first_record_nan_triggers_cluster :
    (construct_projects_df [uRow ("nan")]).map
        (fun r => (r.shifted, r.similarity_score)) = [(none, 100)] ∧
    generate_correction_dict (construct_projects_df [uRow ("nan")]) =
      [(none, "nan"), (some ("nan"), "nan")] := by
  refine ⟨by decide, by decide⟩

theorem chainFrom_append_left (prev : Option String) (l1 l2 : List PRow)
    (h : chainFrom prev (l1 ++ l2)) : chainFrom prev l1 := by
  induction l1 generalizing prev with
  | nil => trivial
  | cons x xs ih => exact ⟨h.1, ih _ h.2⟩

theorem chainFrom_suffix (prev : Option String) (l1 : List PRow) (x : PRow)
    (l2 : List PRow) (h : chainFrom prev (l1 ++ x :: l2)) :
    chainFrom (some x.index) l2 := by
  induction l1 generalizing prev with
  | nil => exact h.2
  | cons y ys ih => exact ih _ h.2

theorem chain_shifted_mem (prev : Option String) (l : List PRow)
    (h : chainFrom prev l) (r : PRow) (hr : r ∈ l) :
    r.shifted = prev ∨ ∃ u ∈ l, r.shifted = some u.index := by
  induction l generalizing prev with
  | nil => cases hr
  | cons x xs ih =>
    rcases List.mem_cons.1 hr with rfl | hr'
    · exact Or.inl h.1
    · rcases ih _ h.2 hr' with h' | ⟨u, hu, h'⟩
      · exact Or.inr ⟨x, List.mem_cons_self x xs, h'⟩
      · exact Or.inr ⟨u, List.mem_cons_of_mem x hu, h'⟩

theorem okState_mono (d : Dict) (S S' : List (Option String))
    (h : okState d S) (hsub : ∀ x, x ∈ S' → x ∈ S) : okState d S' := by
  intro k v hkv
  obtain ⟨h1, h2⟩ := h k v hkv
  exact ⟨h1, fun hx => h2 (hsub _ hx)⟩

theorem process_group_ok (buf : List PRow) (d : Dict) (prev : Option String)
    (Srest : List (Option String)) (hne : buf ≠ [])
    (hchain : chainFrom prev buf)
    (hdisj : ∀ r ∈ buf, some r.index ∉ Srest)
    (hok : okState d (prev :: (buf.map (fun r => some r.index) ++ Srest))) :
    okState (process_group buf d) Srest := by
  cases hs : sortByCount buf with
  | nil =>
    exfalso
    apply hne
    have hperm : sortByCount buf |>.Perm buf := List.perm_insertionSort countGe buf
    rw [hs] at hperm
    exact hperm.symm.eq_nil
  | cons first rest =>
    have hperm : (first :: rest).Perm buf := by
      rw [← hs]
      exact List.perm_insertionSort countGe buf
    have hpg : process_group buf d =
        (group_elements (first :: rest)).foldl
          (fun d e => (e, first.index) :: d) d := by
      rw [process_group, hs]
    have hEmem : ∀ k, k ∈ group_elements (first :: rest) ↔
        (k ∈ buf.map (fun r => some r.index) ∨
         k ∈ buf.map (fun r => r.shifted)) := by
      intro k
      rw [group_elements, List.mem_dedup, List.mem_append,
        (hperm.map (fun r => some r.index)).mem_iff,
        (hperm.map (fun r => r.shifted)).mem_iff]
    have hfirstbuf : first ∈ buf := hperm.mem_iff.1 (List.mem_cons_self first rest)
    have hcE : some first.index ∈ group_elements (first :: rest) :=
      (hEmem _).2 (Or.inl (List.mem_map_of_mem _ hfirstbuf))
    intro k v hkv
    rw [hpg, lookup_foldl_insert] at hkv
    by_cases hkE : k ∈ group_elements (first :: rest)
    · rw [if_pos hkE] at hkv
      have hv : v = first.index := by injection hkv.symm
      subst hv
      refine ⟨?_, hdisj first hfirstbuf⟩
      rw [hpg, lookup_foldl_insert, if_pos hcE]
    · rw [if_neg hkE] at hkv
      obtain ⟨hv1, hv2⟩ := hok k v hkv
      have hvE : some v ∉ group_elements (first :: rest) := by
        intro hvE'
        rcases (hEmem _).1 hvE' with hv | hv
        · exact hv2 (List.mem_cons_of_mem _ (List.mem_append_left _ hv))
        · obtain ⟨r, hrbuf, hrs⟩ := List.mem_map.1 hv
          rcases chain_shifted_mem prev buf hchain r hrbuf with h' | ⟨u, hu, h'⟩
          · have hpv : some v = prev := by rw [← hrs, h']
            exact hv2 (by rw [hpv]; exact List.mem_cons_self _ _)
          · have hpv : (some v : Option String) = some u.index := by rw [← hrs, h']
            exact hv2 (by
              rw [hpv]
              exact List.mem_cons_of_mem _
                (List.mem_append_left _ (List.mem_map_of_mem _ hu)))
      constructor
      · rw [hpg, lookup_foldl_insert, if_neg hvE]
        exact hv1
      · intro hvS
        exact hv2 (List.mem_cons_of_mem _ (List.mem_append_right _ hvS))

theorem gcdLoop_ok :
    ∀ (rest buf : List PRow) (d : Dict) (prev : Option String),
      chainFrom prev (buf ++ rest) →
      ((buf ++ rest).map (fun r => r.index)).Nodup →
      okState d (prev :: (buf ++ rest).map (fun r => some r.index)) →
      selfClosed (gcdLoop rest buf d) := by
  intro rest
  induction rest with
  | nil =>
    intro buf d prev hchain hnd hok
    by_cases hb : buf.isEmpty
    · simp only [gcdLoop, hb, if_true]
      exact fun k v h => (hok k v h).1
    · simp only [gcdLoop, hb, if_false]
      have hne : buf ≠ [] := by
        intro h
        rw [h] at hb
        exact hb rfl
      have hok' : okState (process_group buf d) [] := by
        refine process_group_ok buf d prev [] hne ?_ (by simp) ?_
        · rw [List.append_nil] at hchain
          exact hchain
        · rw [List.append_nil] at hok
          rw [List.append_nil]
          exact hok
      exact fun k v h => (hok' k v h).1
  | cons r rest' ih =>
    intro buf d prev hchain hnd hok
    by_cases h90 : 90 < r.similarity_score
    · simp only [gcdLoop, h90, if_true]
      have hassoc : (buf ++ [r]) ++ rest' = buf ++ r :: rest' := by
        simp
      refine ih (buf ++ [r]) d prev ?_ ?_ ?_ <;> rw [hassoc]
      · exact hchain
      · exact hnd
      · exact hok
    · by_cases hbuf : 0 < buf.length
      · simp only [gcdLoop, h90, if_false, hbuf, if_true]
        have hne : buf ≠ [] := by
          intro h
          rw [h] at hbuf
          exact Nat.lt_irrefl 0 hbuf
        rw [List.map_append, List.map_cons] at hnd
        obtain ⟨hnd1, hnd2, hdisj0⟩ := List.nodup_append.1 hnd
        refine ih [] (process_group buf d) (some r.index) ?_ ?_ ?_
        · exact chainFrom_suffix prev buf r rest' hchain
        · simp only [List.nil_append]
          exact hnd2.of_cons
        · simp only [List.nil_append]
          refine process_group_ok buf d prev
            (some r.index :: rest'.map (fun t => some t.index)) hne
            (chainFrom_append_left prev buf (r :: rest') hchain) ?_ ?_
          · intro s hs hmem
            have hsin : s.index ∈ buf.map (fun t => t.index) :=
              List.mem_map_of_mem _ hs
            have hsin2 : s.index ∈ r.index :: rest'.map (fun t => t.index) := by
              rcases List.mem_cons.1 hmem with h' | h'
              · have : s.index = r.index := by injection h'
                rw [this]
                exact List.mem_cons_self _ _
              · obtain ⟨t, ht, hteq⟩ := List.mem_map.1 h'
                have : s.index = t.index := by injection hteq.symm
                rw [this]
                exact List.mem_cons_of_mem _ (List.mem_map_of_mem _ ht)
            exact hdisj0 hsin hsin2
          · rw [List.map_append, List.map_cons] at hok
            exact hok
      · have hbe : buf = [] := List.eq_nil_of_length_eq_zero
          (Nat.eq_zero_of_not_pos hbuf)
        subst hbe
        simp only [gcdLoop, h90, if_false, hbuf]
        refine ih [] d (some r.index) ?_ ?_ ?_
        · exact hchain.2
        · simp only [List.nil_append] at hnd ⊢
          rw [List.map_cons] at hnd
          exact hnd.of_cons
        · simp only [List.nil_append] at hok ⊢
          refine okState_mono d _ _ hok ?_
          intro x hx
          rcases List.mem_cons.1 hx with rfl | hx'
          · exact List.mem_cons_of_mem _ (by
              rw [List.map_cons]
              exact List.mem_cons_self _ _)
          · refine List.mem_cons_of_mem _ ?_
            rw [List.map_cons]
            exact List.mem_cons_of_mem _ hx'

theorem apply_correction_idem_of_selfClosed (d : Dict) (h : selfClosed d)
    (L : String) :
    apply_correction d (apply_correction d L) = apply_correction d L := by
  cases hl : d.lookup (some L) with
  | none => simp [apply_correction, hl]
  | some v =>
    have hv := h (some L) v hl
    simp [apply_correction, hl, hv]

theorem chainFrom_addShifted (prev : Option String) (l : List (String × Nat)) :
    chainFrom prev (addShifted prev l) := by
  induction l generalizing prev with
  | nil => trivial
  | cons x xs ih =>
    cases x
    exact ⟨rfl, ih _⟩

theorem addShifted_map_index (prev : Option String) (l : List (String × Nat)) :
    (addShifted prev l).map (fun r => r.index) = l.map Prod.fst := by
  induction l generalizing prev with
  | nil => rfl
  | cons x xs ih =>
    cases x
    simp [addShifted, ih]

theorem value_counts_map_fst_nodup (df : List SRow) :
    ((value_counts df).map Prod.fst).Nodup := by
  have hbase : (((df.map (fun r => r.project)).dedup.map
      (fun l => (l, (df.map (fun r => r.project)).count l))).map Prod.fst).Nodup := by
    rw [List.map_map]
    have heq : (Prod.fst ∘ fun l => (l, (df.map (fun r => r.project)).count l)) = id :=
      funext fun l => rfl
    rw [heq, List.map_id]
    exact List.nodup_dedup _
  have hperm := (List.perm_insertionSort vcGe
    ((df.map (fun r => r.project)).dedup.map
      (fun l => (l, (df.map (fun r => r.project)).count l)))).map Prod.fst
  rw [value_counts]
  exact hperm.nodup_iff.2 hbase

/-- Claim C5: the Correction Applier is idempotent for every CorrectionMap
the pipeline produces: applying `apply_correction` twice with the dict
built by `generate_correction_dict` from `construct_projects_df` gives the
same result as applying it once, because every value stored in that dict is
itself a key bound to itself. -/
theorem generate_correction_dict_apply_idempotent (df : List SRow) (L : String) :
    apply_correction (generate_correction_dict (construct_projects_df df))
        (apply_correction (generate_correction_dict (construct_projects_df df)) L) =
      apply_correction (generate_correction_dict (construct_projects_df df)) L := by
  have hchain : chainFrom none (construct_projects_df df) :=
    chainFrom_addShifted none (List.insertionSort pjLe (value_counts df))
  have hnodup : ((construct_projects_df df).map (fun r => r.index)).Nodup := by
    rw [construct_projects_df, addShifted_map_index]
    exact ((List.perm_insertionSort pjLe (value_counts df)).map Prod.fst).nodup_iff.2
      (value_counts_map_fst_nodup df)
  have hok : okState []
      (none :: (construct_projects_df df).map (fun r => some r.index)) := by
    intro k v h
    exact absurd h (by simp)
  have hsc : selfClosed (generate_correction_dict (construct_projects_df df)) :=
    gcdLoop_ok (construct_projects_df df) [] [] none hchain hnodup hok
  exact apply_correction_idem_of_selfClosed _ hsc L
